import Mathlib

/-!
Shallow embedding of `helix-stdx/src/str.rs` (`TinyBoxedStr`): a two-word
small-string type. Strings are modelled as lists of bytes (`List Nat`), and
the process heap is modelled explicitly as an association list of blocks
(pointer, contents, layout) together with a fresh-pointer counter and a count
of the allocations performed, so that claims about allocation, the layout
passed to `dealloc`, and clone independence can be stated.

On a 64-bit target (`size_of::<usize>() = 8`): `PREFIX_LEN = 7`,
`SUFFIX_LEN = 8`, `INLINE_LEN = 15`, `MAX_LEN = 255`.
-/

set_option autoImplicit false

deriving instance DecidableEq for Except

namespace TinyStr

abbrev Byte := Nat

/-- Models `std::alloc::Layout`: a size in bytes and an alignment. -/
structure Layout where
  size : Nat
  align : Nat
deriving DecidableEq, Repr

/-- Round `n` up to the next multiple of `a`. -/
def alignUp (n a : Nat) : Nat := a * ((n + a - 1) / a)

/-- Models `Layout::array::<u8>(n)`: `n` bytes, alignment 1. -/
def Layout.arrayU8 (n : Nat) : Layout := ⟨n * 1, 1⟩

/-- Models `Layout::pad_to_align`. -/
def Layout.padToAlign (l : Layout) : Layout := ⟨alignUp l.size l.align, l.align⟩

/-- The heap: next fresh pointer, allocated blocks (pointer, contents, layout
recorded at allocation time), and the number of allocations performed. -/
structure Heap where
  next : Nat
  blocks : List (Nat × List Byte × Layout)
  allocCount : Nat
deriving DecidableEq, Repr

def Heap.empty : Heap := ⟨1, [], 0⟩

/-- Models `alloc::alloc_zeroed` (and friends): install a block at a fresh pointer. -/
def Heap.alloc (h : Heap) (c : List Byte) (l : Layout) : Heap × Nat :=
  (⟨h.next + 1, (h.next, c, l) :: h.blocks, h.allocCount + 1⟩, h.next)

/-- Register a block whose allocation happened before the operation being
modelled (used for stealing a `Box<str>`'s existing allocation): same as
`alloc` but performs no new allocation. -/
def Heap.adopt (h : Heap) (c : List Byte) (l : Layout) : Heap × Nat :=
  (⟨h.next + 1, (h.next, c, l) :: h.blocks, h.allocCount⟩, h.next)

/-- Read the block at pointer `p`. -/
def Heap.lookup (h : Heap) (p : Nat) : Option (List Byte × Layout) :=
  (h.blocks.find? (fun b => b.1 == p)).map (fun b => b.2)

/-- Overwrite the contents of the block at pointer `p`. -/
def Heap.write (h : Heap) (p : Nat) (c : List Byte) : Heap :=
  ⟨h.next, h.blocks.map (fun b => if b.1 = p then (b.1, c, b.2.2) else b), h.allocCount⟩

/-- Models `alloc::dealloc`: remove the block at pointer `p`. -/
def Heap.dealloc (h : Heap) (p : Nat) : Heap :=
  ⟨h.next, h.blocks.filter (fun b => b.1 ≠ p), h.allocCount⟩

/-- The union `TinyBoxedStrTrailing`: either the inline suffix bytes or a
pointer to a heap buffer. The source stores both in one word and selects the
active interpretation by comparing `len` with `INLINE_LEN`. -/
inductive Trailing where
  | suffix (bytes : List Byte)
  | ptr (p : Nat)
deriving DecidableEq, Repr

/-- Models the struct `TinyBoxedStr` with fields `len: u8`,
`prefix: [u8; PREFIX_LEN]` and the trailing union.
The source's `prefix` field is named `pfx` here (`prefix` is reserved). -/
structure TinyBoxedStr where
  len : Nat
  pfx : List Byte
  trailing : Trailing
deriving DecidableEq, Repr

namespace TinyBoxedStr

/-- Value of `size_of::<usize>() - size_of::<u8>()` on a 64-bit target. -/
def PREFIX_LEN : Nat := 8 - 1

/-- Value of `size_of::<usize>()` on a 64-bit target. -/
def SUFFIX_LEN : Nat := 8

/-- Value of `(PREFIX_LEN + SUFFIX_LEN) as u8`, 15 on a 64-bit target. -/
def INLINE_LEN : Nat := PREFIX_LEN + SUFFIX_LEN

/-- Value of `u8::MAX as usize`. -/
def MAX_LEN : Nat := 255

/-- Whether the instance stores its content inline (suffix interpretation of
the trailing union) rather than behind a pointer. -/
def inlineMode (t : TinyBoxedStr) : Bool :=
  match t.trailing with
  | .suffix _ => true
  | .ptr _ => false

/-- Models `TinyBoxedStr::as_bytes`: if `len <= INLINE_LEN` read `len` bytes from the
inline prefix+suffix region, else read `len` bytes from the heap buffer.
(The impossible union interpretations yield `[]`; they are undefined behaviour
in the source and unreachable for well-formed instances.) -/
def asBytes (h : Heap) (t : TinyBoxedStr) : List Byte :=
  if t.len ≤ INLINE_LEN then
    match t.trailing with
    | .suffix sfx => (t.pfx ++ sfx).take t.len
    | .ptr _ => []
  else
    match t.trailing with
    | .ptr p =>
      match h.lookup p with
      | some bl => bl.1.take t.len
      | none => []
    | .suffix _ => []

/-- Models `TinyBoxedStr::layout`: `Layout::array::<u8>(len).pad_to_align()`. -/
def layout (len : Nat) : Layout := (Layout.arrayU8 len).padToAlign

/-- Models `TinyBoxedStr::zeroed`: inline instances need no allocation; longer ones
allocate a zeroed buffer of `layout len`. -/
def zeroed (h : Heap) (len : Nat) : Heap × TinyBoxedStr :=
  if len ≤ INLINE_LEN then
    (h, ⟨len, List.replicate PREFIX_LEN 0, .suffix (List.replicate SUFFIX_LEN 0)⟩)
  else
    let al := h.alloc (List.replicate len 0) (layout len)
    (al.1, ⟨len, List.replicate PREFIX_LEN 0, .ptr al.2⟩)

/-- Models `this.as_bytes_mut().copy_from_slice(s)`: write the `s.length` bytes of
`s` through the mutable byte view. For an inline instance the view covers the
first `len` bytes of the prefix+suffix region; for a heap instance it covers
the first `len` bytes of the heap buffer. -/
def copyFromSlice (h : Heap) (t : TinyBoxedStr) (s : List Byte) :
    Heap × TinyBoxedStr :=
  if t.len ≤ INLINE_LEN then
    match t.trailing with
    | .suffix sfx =>
      let region := s ++ (t.pfx ++ sfx).drop s.length
      (h, ⟨t.len, region.take PREFIX_LEN, .suffix (region.drop PREFIX_LEN)⟩)
    | .ptr _ => (h, t)
  else
    match t.trailing with
    | .ptr p =>
      match h.lookup p with
      | some bl => (h.write p (s ++ bl.1.drop s.length), t)
      | none => (h, t)
    | .suffix _ => (h, t)

end TinyBoxedStr

/-- The single error of every construction path. -/
inductive TooLongError where
  | tooLong
deriving DecidableEq, Repr

open TinyBoxedStr in
/-- Models `impl TryFrom<&str> for TinyBoxedStr`. -/
def tryFromStr (h : Heap) (s : List Byte) :
    Heap × Except TooLongError TinyBoxedStr :=
  if s.length > MAX_LEN then
    (h, .error .tooLong)
  else
    let z := zeroed h s.length
    let c := copyFromSlice z.1 z.2 s
    let t := c.2
    let t := if INLINE_LEN < t.len then { t with pfx := s.take PREFIX_LEN } else t
    (c.1, .ok t)

/-- An owned `String`: its bytes and its capacity. Its backing buffer is kept
outside the modelled heap until (possibly) adopted by `intoBoxedStr`. -/
structure RustString where
  bytes : List Byte
  cap : Nat
deriving DecidableEq, Repr

/-- The layout of the allocation backing a `Box<str>` of `n` bytes:
`n` bytes, alignment 1 (what `Box::from` / `dealloc` of a `str` uses). -/
def strBoxLayout (n : Nat) : Layout := ⟨n, 1⟩

/-- Models `String::into_boxed_str` followed by `Box::into_raw`: if the string is
allocated exactly (`cap = len`) its existing allocation is reused (no new
allocation); otherwise it is reallocated to exactly `len` bytes. -/
def intoBoxedStr (h : Heap) (s : RustString) : Heap × Nat :=
  if s.cap = s.bytes.length then
    h.adopt s.bytes (strBoxLayout s.bytes.length)
  else
    h.alloc s.bytes (strBoxLayout s.bytes.length)

open TinyBoxedStr in
/-- Models `impl TryFrom<String> for TinyBoxedStr`. -/
def tryFromString (h : Heap) (s : RustString) :
    Heap × Except TooLongError TinyBoxedStr :=
  if s.bytes.length ≤ INLINE_LEN then
    tryFromStr h s.bytes
  else if s.bytes.length > MAX_LEN then
    (h, .error .tooLong)
  else
    let len := s.bytes.length
    let p := s.bytes.take PREFIX_LEN
    let b := intoBoxedStr h s
    (b.1, .ok ⟨len, p, .ptr b.2⟩)

/-- Models `Cow<'_, str>`. -/
inductive Cow where
  | borrowed (s : List Byte)
  | owned (s : RustString)
deriving DecidableEq, Repr

/-- Byte length of the string a `Cow` holds. -/
def Cow.byteLen : Cow → Nat
  | .borrowed s => s.length
  | .owned s => s.bytes.length

/-- The byte content of the string a `Cow` holds. -/
def Cow.bytes : Cow → List Byte
  | .borrowed s => s
  | .owned s => s.bytes

/-- Models `impl TryFrom<Cow<'_, str>> for TinyBoxedStr`: dispatch on the variant. -/
def tryFromCow (h : Heap) (c : Cow) : Heap × Except TooLongError TinyBoxedStr :=
  match c with
  | .borrowed s => tryFromStr h s
  | .owned s => tryFromString h s

/-- Models `impl TryFrom<ropey::RopeSlice> for TinyBoxedStr`: the slice is first
converted into a `Cow<str>` by ropey's own (external) conversion; the
parameter `c` is that `Cow`, and the byte length of the slice is `c.byteLen`. -/
def tryFromRopeSlice (h : Heap) (c : Cow) :
    Heap × Except TooLongError TinyBoxedStr :=
  tryFromCow h c

namespace TinyBoxedStr

/-- Models `impl Drop for TinyBoxedStr`. Besides the updated heap, we return the
dealloc action performed: `some (p, l)` means `alloc::dealloc(p, l)` ran. -/
def drop (h : Heap) (t : TinyBoxedStr) : Heap × Option (Nat × Layout) :=
  if INLINE_LEN < t.len then
    match t.trailing with
    | .ptr p => (h.dealloc p, some (p, layout t.len))
    | .suffix _ => (h, none)
  else
    (h, none)

/-- Models `impl Clone for TinyBoxedStr`: zeroed instance of the same length, copy
the bytes through the mutable view, mirror the prefix when heap-allocated. -/
def clone (h : Heap) (t : TinyBoxedStr) : Heap × TinyBoxedStr :=
  let z := zeroed h t.len
  let c := copyFromSlice z.1 z.2 (asBytes z.1 t)
  let t2 := c.2
  let t2 :=
    if INLINE_LEN < t2.len then { t2 with pfx := (asBytes c.1 t).take PREFIX_LEN }
    else t2
  (c.1, t2)

/-- Models `impl Default for TinyBoxedStr`: `zeroed(0)`. -/
def default (h : Heap) : Heap × TinyBoxedStr := zeroed h 0

/-- Models `impl PartialEq for TinyBoxedStr`: `self.as_str() == other.as_str()`. -/
def beq (h : Heap) (a b : TinyBoxedStr) : Bool := asBytes h a == asBytes h b

/-- Models `impl PartialEq<str> for TinyBoxedStr`: `self.as_str() == other`. -/
def beqStr (h : Heap) (t : TinyBoxedStr) (s : List Byte) : Bool :=
  asBytes h t == s

/-- Models `impl Hash for TinyBoxedStr`: feed exactly `self.as_str()` to the hasher
(modelled as an arbitrary function of the byte content). -/
def hashWith (hasher : List Byte → Nat) (h : Heap) (t : TinyBoxedStr) : Nat :=
  hasher (asBytes h t)

/-- Whether `p` points at a live block of exactly `len` bytes whose recorded
allocation layout is `layout len`. -/
def blockWf (h : Heap) (p len : Nat) : Bool :=
  match h.lookup p with
  | some bl => (bl.1.length == len) && (bl.2 == layout len)
  | none => false

/-- Well-formedness of an instance with respect to a heap (Bool form): `len`
fits in a `u8`; the prefix region holds `PREFIX_LEN` bytes; the trailing
union's interpretation agrees with the `len`-derived storage mode; a heap
instance points at a live block of exactly `len` bytes allocated with layout
`layout len` at a pointer below the fresh-pointer mark. -/
def wfb (h : Heap) (t : TinyBoxedStr) : Bool :=
  decide (t.len ≤ MAX_LEN) && (t.pfx.length == PREFIX_LEN) &&
  (match t.trailing with
   | .suffix sfx => decide (t.len ≤ INLINE_LEN) && (sfx.length == SUFFIX_LEN)
   | .ptr p => decide (INLINE_LEN < t.len) && decide (p < h.next) &&
       blockWf h p t.len)

/-- Well-formedness: the invariants every construction path establishes. -/
@[reducible] def Wf (h : Heap) (t : TinyBoxedStr) : Prop := wfb h t = true

end TinyBoxedStr

/-! ### Size model of the struct layout

`TinyBoxedStr` is `#[repr(C)]` with fields `len: u8`,
`prefix: [u8; PREFIX_LEN]` and a union of `[u8; SUFFIX_LEN]` with
`ManuallyDrop<NonNull<u8>>`. We model Rust's C layout algorithm for a target
with word size `w` (`PREFIX_LEN = w - 1`, `SUFFIX_LEN = w`, pointers have
size and alignment `w`). -/

/-- Layout of a C union: size is the maximal member size rounded up to the
maximal member alignment. -/
def unionLayout (ls : List Layout) : Layout :=
  let al := ls.foldl (fun a l => max a l.align) 1
  ⟨alignUp (ls.foldl (fun n l => max n l.size) 0) al, al⟩

/-- C struct layout: place each field at the next offset aligned for it; the
total size is the end offset rounded up to the struct alignment. -/
def reprC (fields : List Layout) : Layout :=
  let p := fields.foldl (fun acc f => (alignUp acc.1 f.align + f.size, max acc.2 f.align)) (0, 1)
  ⟨alignUp p.1 p.2, p.2⟩

/-- Layout of `u8`. -/
def u8Layout : Layout := ⟨1, 1⟩

/-- Layout of `[u8; n]`. -/
def byteArrayLayout (n : Nat) : Layout := ⟨n, 1⟩

/-- Layout of `usize` / a thin pointer on a target with word size `w`. -/
def usizeLayout (w : Nat) : Layout := ⟨w, w⟩

/-- The `TinyBoxedStrTrailing` union on a target with word size `w`. -/
def trailingLayout (w : Nat) : Layout :=
  unionLayout [byteArrayLayout w, usizeLayout w]

/-- The `TinyBoxedStr` struct on a target with word size `w`. -/
def tinyBoxedStrLayout (w : Nat) : Layout :=
  reprC [u8Layout, byteArrayLayout (w - 1), trailingLayout w]

/-- A pointer+length+capacity string handle (e.g. `String`) on a target with
word size `w`: three words. -/
def ptrLenCapLayout (w : Nat) : Layout :=
  reprC [usizeLayout w, usizeLayout w, usizeLayout w]

/-! ### Heap lemmas -/

theorem find?_map_update_self (bs : List (Nat × List Byte × Layout)) (p : Nat)
    (c : List Byte) :
    (bs.map (fun b => if b.1 = p then (b.1, c, b.2.2) else b)).find?
        (fun b => b.1 == p)
      = (bs.find? (fun b => b.1 == p)).map (fun b => (b.1, c, b.2.2)) := by
  induction bs with
  | nil => rfl
  | cons b bs ih =>
    by_cases hb : b.1 = p
    · rw [List.map_cons, if_pos hb, List.find?_cons_of_pos _ (by simpa using hb),
        List.find?_cons_of_pos _ (by simpa using hb)]
      rfl
    · rw [List.map_cons, if_neg hb, List.find?_cons_of_neg _ (by simpa using hb),
        List.find?_cons_of_neg _ (by simpa using hb)]
      exact ih

theorem find?_map_update_ne (bs : List (Nat × List Byte × Layout)) (p q : Nat)
    (c : List Byte) (hq : q ≠ p) :
    (bs.map (fun b => if b.1 = p then (b.1, c, b.2.2) else b)).find?
        (fun b => b.1 == q)
      = bs.find? (fun b => b.1 == q) := by
  induction bs with
  | nil => rfl
  | cons b bs ih =>
    by_cases hb : b.1 = q
    · have hbp : ¬ b.1 = p := by rw [hb]; exact hq
      rw [List.map_cons, if_neg hbp, List.find?_cons_of_pos _ (by simpa using hb),
        List.find?_cons_of_pos _ (by simpa using hb)]
    · by_cases hbp : b.1 = p
      · rw [List.map_cons, if_pos hbp,
          List.find?_cons_of_neg _ (by simpa using hb),
          List.find?_cons_of_neg _ (by simpa using hb)]
        exact ih
      · rw [List.map_cons, if_neg hbp, List.find?_cons_of_neg _ (by simpa using hb),
          List.find?_cons_of_neg _ (by simpa using hb)]
        exact ih

theorem find?_filter_out_self (bs : List (Nat × List Byte × Layout)) (p : Nat) :
    (bs.filter (fun b => b.1 ≠ p)).find? (fun b => b.1 == p) = none := by
  induction bs with
  | nil => rfl
  | cons b bs ih =>
    by_cases hb : b.1 = p
    · rw [List.filter_cons_of_neg (by simpa using hb)]
      exact ih
    · rw [List.filter_cons_of_pos (by simpa using hb),
        List.find?_cons_of_neg _ (by simpa using hb)]
      exact ih

theorem find?_filter_out_ne (bs : List (Nat × List Byte × Layout)) (p q : Nat)
    (hq : q ≠ p) :
    (bs.filter (fun b => b.1 ≠ p)).find? (fun b => b.1 == q)
      = bs.find? (fun b => b.1 == q) := by
  induction bs with
  | nil => rfl
  | cons b bs ih =>
    by_cases hb : b.1 = p
    · rw [List.filter_cons_of_neg (by simpa using hb),
        List.find?_cons_of_neg _ (by simp [hb]; exact fun hh => hq hh.symm)]
      exact ih
    · rw [List.filter_cons_of_pos (by simpa using hb)]
      by_cases hbq : b.1 = q
      · rw [List.find?_cons_of_pos _ (by simpa using hbq),
          List.find?_cons_of_pos _ (by simpa using hbq)]
      · rw [List.find?_cons_of_neg _ (by simpa using hbq),
          List.find?_cons_of_neg _ (by simpa using hbq)]
        exact ih

theorem Heap.lookup_alloc_self (h : Heap) (c : List Byte) (l : Layout) :
    (h.alloc c l).1.lookup h.next = some (c, l) := by
  simp only [Heap.alloc, Heap.lookup]
  rw [List.find?_cons_of_pos _ (by simp)]
  rfl

theorem Heap.lookup_alloc_ne (h : Heap) (c : List Byte) (l : Layout) (q : Nat)
    (hq : q ≠ h.next) : (h.alloc c l).1.lookup q = h.lookup q := by
  simp only [Heap.alloc, Heap.lookup]
  rw [List.find?_cons_of_neg _ (by simpa using Ne.symm hq)]

theorem Heap.lookup_adopt_self (h : Heap) (c : List Byte) (l : Layout) :
    (h.adopt c l).1.lookup h.next = some (c, l) := by
  simp only [Heap.adopt, Heap.lookup]
  rw [List.find?_cons_of_pos _ (by simp)]
  rfl

theorem Heap.lookup_adopt_ne (h : Heap) (c : List Byte) (l : Layout) (q : Nat)
    (hq : q ≠ h.next) : (h.adopt c l).1.lookup q = h.lookup q := by
  simp only [Heap.adopt, Heap.lookup]
  rw [List.find?_cons_of_neg _ (by simpa using Ne.symm hq)]

theorem Heap.lookup_write_self (h : Heap) (p : Nat) (c : List Byte) :
    (h.write p c).lookup p = (h.lookup p).map (fun bl => (c, bl.2)) := by
  simp only [Heap.write, Heap.lookup]
  rw [find?_map_update_self]
  simp only [Option.map_map]
  rfl

theorem Heap.lookup_write_ne (h : Heap) (p : Nat) (c : List Byte) (q : Nat)
    (hq : q ≠ p) : (h.write p c).lookup q = h.lookup q := by
  simp only [Heap.write, Heap.lookup]
  rw [find?_map_update_ne _ _ _ _ hq]

theorem Heap.lookup_dealloc_self (h : Heap) (p : Nat) :
    (h.dealloc p).lookup p = none := by
  simp only [Heap.dealloc, Heap.lookup]
  rw [find?_filter_out_self]
  rfl

theorem Heap.lookup_dealloc_ne (h : Heap) (p q : Nat) (hq : q ≠ p) :
    (h.dealloc p).lookup q = h.lookup q := by
  simp only [Heap.dealloc, Heap.lookup]
  rw [find?_filter_out_ne _ _ _ hq]

theorem Heap.alloc_snd (h : Heap) (c : List Byte) (l : Layout) :
    (h.alloc c l).2 = h.next := rfl

theorem Heap.adopt_snd (h : Heap) (c : List Byte) (l : Layout) :
    (h.adopt c l).2 = h.next := rfl

theorem Heap.alloc_next (h : Heap) (c : List Byte) (l : Layout) :
    (h.alloc c l).1.next = h.next + 1 := rfl

theorem Heap.adopt_next (h : Heap) (c : List Byte) (l : Layout) :
    (h.adopt c l).1.next = h.next + 1 := rfl

theorem Heap.alloc_count (h : Heap) (c : List Byte) (l : Layout) :
    (h.alloc c l).1.allocCount = h.allocCount + 1 := rfl

theorem Heap.adopt_count (h : Heap) (c : List Byte) (l : Layout) :
    (h.adopt c l).1.allocCount = h.allocCount := rfl

theorem Heap.write_next (h : Heap) (p : Nat) (c : List Byte) :
    (h.write p c).next = h.next := rfl

theorem Heap.write_count (h : Heap) (p : Nat) (c : List Byte) :
    (h.write p c).allocCount = h.allocCount := rfl

theorem Heap.dealloc_next (h : Heap) (p : Nat) :
    (h.dealloc p).next = h.next := rfl

theorem Heap.dealloc_count (h : Heap) (p : Nat) :
    (h.dealloc p).allocCount = h.allocCount := rfl

/-! ### Byte-view lemmas -/

namespace TinyBoxedStr

theorem asBytes_suffix (h : Heap) (t : TinyBoxedStr) (sfx : List Byte)
    (hle : t.len ≤ INLINE_LEN) (ht : t.trailing = .suffix sfx) :
    asBytes h t = (t.pfx ++ sfx).take t.len := by
  simp [asBytes, hle, ht]

theorem asBytes_ptr (h : Heap) (t : TinyBoxedStr) (p : Nat) (buf : List Byte)
    (l : Layout) (hgt : INLINE_LEN < t.len) (ht : t.trailing = .ptr p)
    (hl : h.lookup p = some (buf, l)) : asBytes h t = buf.take t.len := by
  simp [asBytes, Nat.not_le.mpr hgt, ht, hl]

theorem asBytes_congr (h1 h2 : Heap) (t : TinyBoxedStr)
    (hp : ∀ p, t.trailing = .ptr p → h1.lookup p = h2.lookup p) :
    asBytes h1 t = asBytes h2 t := by
  cases ht : t.trailing with
  | suffix sfx => simp [asBytes, ht]
  | ptr p => simp [asBytes, ht, hp p ht]

/-! ### Characterization of the construction paths -/

theorem tryFromStr_inline (h : Heap) (s : List Byte)
    (hle : s.length ≤ INLINE_LEN) :
    tryFromStr h s = (h, .ok ⟨s.length,
      (s ++ List.replicate (INLINE_LEN - s.length) 0).take PREFIX_LEN,
      .suffix ((s ++ List.replicate (INLINE_LEN - s.length) 0).drop PREFIX_LEN)⟩) := by
  have hmax : ¬ s.length > MAX_LEN := by
    have : INLINE_LEN ≤ MAX_LEN := by decide
    omega
  have hrep : List.replicate PREFIX_LEN (0 : Byte) ++ List.replicate SUFFIX_LEN 0
      = List.replicate INLINE_LEN 0 := (List.replicate_add _ _ _).symm
  unfold tryFromStr zeroed copyFromSlice
  rw [if_neg hmax, if_pos hle]
  simp only [if_pos hle, hrep, List.drop_replicate]
  rw [if_neg (Nat.not_lt.mpr hle)]

theorem tryFromStr_heap (h : Heap) (s : List Byte)
    (hgt : INLINE_LEN < s.length) (hmax : s.length ≤ MAX_LEN) :
    tryFromStr h s =
      ((h.alloc (List.replicate s.length 0) (layout s.length)).1.write h.next s,
        .ok ⟨s.length, s.take PREFIX_LEN, .ptr h.next⟩) := by
  unfold tryFromStr zeroed copyFromSlice
  rw [if_neg (Nat.not_lt.mpr hmax), if_neg (Nat.not_le.mpr hgt)]
  simp only [Heap.alloc_snd, Heap.lookup_alloc_self, if_neg (Nat.not_le.mpr hgt),
    List.drop_replicate, Nat.sub_self, List.replicate_zero, List.append_nil]
  rw [if_pos hgt]

theorem PREFIX_LEN_eq : PREFIX_LEN = 7 := rfl

theorem SUFFIX_LEN_eq : SUFFIX_LEN = 8 := rfl

theorem INLINE_LEN_eq : INLINE_LEN = 15 := rfl

theorem MAX_LEN_eq : MAX_LEN = 255 := rfl

/-- Everything the claims need about a successful borrowed-text construction,
in one bundle. -/
theorem tryFromStr_ok (h : Heap) (s : List Byte) (hmax : s.length ≤ MAX_LEN) :
    ∃ t : TinyBoxedStr, (tryFromStr h s).2 = .ok t ∧
      t.len = s.length ∧
      asBytes (tryFromStr h s).1 t = s ∧
      Wf (tryFromStr h s).1 t ∧
      (s.length ≤ INLINE_LEN →
        (tryFromStr h s).1 = h ∧ ∃ sfx, t.trailing = .suffix sfx) ∧
      (INLINE_LEN < s.length →
        t.pfx = s.take PREFIX_LEN ∧ t.trailing = .ptr h.next ∧
        (tryFromStr h s).1.lookup h.next = some (s, layout s.length)) ∧
      (∀ q, q ≠ h.next → (tryFromStr h s).1.lookup q = h.lookup q) ∧
      h.next ≤ (tryFromStr h s).1.next := by
  by_cases hle : s.length ≤ INLINE_LEN
  · rw [tryFromStr_inline h s hle]
    have hlen : (s ++ List.replicate (INLINE_LEN - s.length) 0).length
        = INLINE_LEN := by
      simp [INLINE_LEN_eq] at hle ⊢
      omega
    refine ⟨_, rfl, rfl, ?_, ?_, fun _ => ⟨rfl, _, rfl⟩,
      fun hcon => absurd hcon (Nat.not_lt.mpr hle), fun _ _ => rfl,
      Nat.le_refl _⟩
    · rw [asBytes_suffix _ _ _ hle rfl, List.take_append_drop,
        List.take_left' rfl]
    · simp only [Wf, wfb]
      simp only [Bool.and_eq_true, decide_eq_true_eq, beq_iff_eq]
      refine ⟨⟨le_trans hle (by decide), ?_⟩, hle, ?_⟩
      · rw [List.length_take, hlen]
        decide
      · rw [List.length_drop, hlen]
        decide
  · have hgt := Nat.lt_of_not_le hle
    rw [tryFromStr_heap h s hgt hmax]
    have hlk : ((h.alloc (List.replicate s.length 0)
          (layout s.length)).1.write h.next s).lookup h.next
        = some (s, layout s.length) := by
      rw [Heap.lookup_write_self, Heap.lookup_alloc_self]
      rfl
    refine ⟨_, rfl, rfl, ?_, ?_,
      fun hcon => absurd hgt (Nat.not_lt.mpr hcon),
      fun _ => ⟨rfl, rfl, hlk⟩, ?_, ?_⟩
    · rw [asBytes_ptr _ _ h.next s (layout s.length) hgt rfl hlk]
      exact List.take_length _
    · simp only [Wf, wfb, blockWf, hlk]
      simp only [Bool.and_eq_true, decide_eq_true_eq, beq_iff_eq]
      refine ⟨⟨hmax, ?_⟩, ⟨hgt, ?_⟩, trivial, trivial⟩
      · rw [List.length_take]
        have := hgt
        rw [INLINE_LEN_eq] at this
        rw [PREFIX_LEN_eq]
        omega
      · rw [Heap.write_next, Heap.alloc_next]
        omega
    · intro q hq
      rw [Heap.lookup_write_ne _ _ _ _ hq, Heap.lookup_alloc_ne _ _ _ _ hq]
    · rw [Heap.write_next, Heap.alloc_next]
      omega

theorem strBoxLayout_eq_layout (n : Nat) : strBoxLayout n = layout n := by
  simp [strBoxLayout, layout, Layout.arrayU8, Layout.padToAlign, alignUp]

theorem intoBoxedStr_snd (h : Heap) (st : RustString) :
    (intoBoxedStr h st).2 = h.next := by
  unfold intoBoxedStr
  split <;> rfl

theorem intoBoxedStr_lookup_self (h : Heap) (st : RustString) :
    (intoBoxedStr h st).1.lookup h.next
      = some (st.bytes, strBoxLayout st.bytes.length) := by
  unfold intoBoxedStr
  split
  · exact Heap.lookup_adopt_self _ _ _
  · exact Heap.lookup_alloc_self _ _ _

theorem intoBoxedStr_lookup_ne (h : Heap) (st : RustString) (q : Nat)
    (hq : q ≠ h.next) : (intoBoxedStr h st).1.lookup q = h.lookup q := by
  unfold intoBoxedStr
  split
  · exact Heap.lookup_adopt_ne _ _ _ _ hq
  · exact Heap.lookup_alloc_ne _ _ _ _ hq

theorem intoBoxedStr_next (h : Heap) (st : RustString) :
    (intoBoxedStr h st).1.next = h.next + 1 := by
  unfold intoBoxedStr
  split <;> rfl

theorem tryFromString_inline (h : Heap) (st : RustString)
    (hle : st.bytes.length ≤ INLINE_LEN) :
    tryFromString h st = tryFromStr h st.bytes := by
  unfold tryFromString
  rw [if_pos hle]

theorem tryFromString_heap (h : Heap) (st : RustString)
    (hgt : INLINE_LEN < st.bytes.length) (hmax : st.bytes.length ≤ MAX_LEN) :
    tryFromString h st = ((intoBoxedStr h st).1,
      .ok ⟨st.bytes.length, st.bytes.take PREFIX_LEN, .ptr h.next⟩) := by
  unfold tryFromString
  rw [if_neg (Nat.not_le.mpr hgt), if_neg (Nat.not_lt.mpr hmax)]
  simp only []
  rw [intoBoxedStr_snd]

/-- The bundle for a successful owned-buffer construction. -/
theorem tryFromString_ok (h : Heap) (st : RustString)
    (hmax : st.bytes.length ≤ MAX_LEN) :
    ∃ t : TinyBoxedStr, (tryFromString h st).2 = .ok t ∧
      t.len = st.bytes.length ∧
      asBytes (tryFromString h st).1 t = st.bytes ∧
      Wf (tryFromString h st).1 t ∧
      (st.bytes.length ≤ INLINE_LEN →
        (tryFromString h st).1 = h ∧ ∃ sfx, t.trailing = .suffix sfx) ∧
      (INLINE_LEN < st.bytes.length →
        t.pfx = st.bytes.take PREFIX_LEN ∧ t.trailing = .ptr h.next ∧
        (tryFromString h st).1.lookup h.next
          = some (st.bytes, layout st.bytes.length)) ∧
      (∀ q, q ≠ h.next → (tryFromString h st).1.lookup q = h.lookup q) ∧
      h.next ≤ (tryFromString h st).1.next := by
  by_cases hle : st.bytes.length ≤ INLINE_LEN
  · rw [tryFromString_inline h st hle]
    exact tryFromStr_ok h st.bytes hmax
  · have hgt := Nat.lt_of_not_le hle
    rw [tryFromString_heap h st hgt hmax]
    have hlk : (intoBoxedStr h st).1.lookup h.next
        = some (st.bytes, layout st.bytes.length) := by
      rw [intoBoxedStr_lookup_self, strBoxLayout_eq_layout]
    refine ⟨_, rfl, rfl, ?_, ?_,
      fun hcon => absurd hgt (Nat.not_lt.mpr hcon),
      fun _ => ⟨rfl, rfl, hlk⟩, ?_, ?_⟩
    · rw [asBytes_ptr _ _ h.next st.bytes (layout st.bytes.length) hgt rfl hlk]
      exact List.take_length _
    · simp only [Wf, wfb, blockWf, hlk]
      simp only [Bool.and_eq_true, decide_eq_true_eq, beq_iff_eq]
      refine ⟨⟨hmax, ?_⟩, ⟨hgt, ?_⟩, trivial, trivial⟩
      · rw [List.length_take]
        have := hgt
        rw [INLINE_LEN_eq] at this
        rw [PREFIX_LEN_eq]
        omega
      · rw [intoBoxedStr_next]
        omega
    · exact fun q hq => intoBoxedStr_lookup_ne h st q hq
    · rw [intoBoxedStr_next]
      omega

/-- Unpack the well-formedness predicate into usable components. -/
theorem wf_elim (h : Heap) (t : TinyBoxedStr) (hw : Wf h t) :
    t.len ≤ MAX_LEN ∧ t.pfx.length = PREFIX_LEN ∧
    ((∃ sfx, t.trailing = .suffix sfx ∧ t.len ≤ INLINE_LEN ∧
        sfx.length = SUFFIX_LEN) ∨
     (∃ p buf l, t.trailing = .ptr p ∧ INLINE_LEN < t.len ∧ p < h.next ∧
        h.lookup p = some (buf, l) ∧ buf.length = t.len ∧ l = layout t.len)) := by
  rcases t with ⟨len, pfx, tr⟩
  cases tr with
  | suffix sfx =>
    simp only [Wf, wfb] at hw
    simp only [Bool.and_eq_true, decide_eq_true_eq, beq_iff_eq] at hw
    exact ⟨hw.1.1, hw.1.2, .inl ⟨sfx, rfl, hw.2.1, hw.2.2⟩⟩
  | ptr p =>
    simp only [Wf, wfb, blockWf] at hw
    cases hlk : Heap.lookup h p with
    | none =>
      rw [hlk] at hw
      simp at hw
    | some bl =>
      rw [hlk] at hw
      simp only [Bool.and_eq_true, decide_eq_true_eq, beq_iff_eq] at hw
      exact ⟨hw.1.1, hw.1.2,
        .inr ⟨p, bl.1, bl.2, rfl, hw.2.1.1, hw.2.1.2, by rw [hlk], hw.2.2.1,
          hw.2.2.2⟩⟩

theorem drop_of_inline (h : Heap) (t : TinyBoxedStr) (hle : t.len ≤ INLINE_LEN) :
    TinyBoxedStr.drop h t = (h, none) := by
  unfold TinyBoxedStr.drop
  rw [if_neg (Nat.not_lt.mpr hle)]

theorem drop_of_ptr (h : Heap) (t : TinyBoxedStr) (p : Nat)
    (hgt : INLINE_LEN < t.len) (ht : t.trailing = .ptr p) :
    TinyBoxedStr.drop h t = (h.dealloc p, some (p, layout t.len)) := by
  unfold TinyBoxedStr.drop
  rw [if_pos hgt]
  simp only [ht]

theorem clone_inline (h : Heap) (t : TinyBoxedStr) (sfx : List Byte)
    (hle : t.len ≤ INLINE_LEN) (ht : t.trailing = .suffix sfx)
    (hpfx : t.pfx.length = PREFIX_LEN) (hsfx : sfx.length = SUFFIX_LEN) :
    clone h t = (h, ⟨t.len,
      (asBytes h t ++ List.replicate (INLINE_LEN - t.len) 0).take PREFIX_LEN,
      .suffix ((asBytes h t
        ++ List.replicate (INLINE_LEN - t.len) 0).drop PREFIX_LEN)⟩) := by
  have hab : (asBytes h t).length = t.len := by
    rw [asBytes_suffix _ _ _ hle ht, List.length_take, List.length_append,
      hpfx, hsfx]
    rw [INLINE_LEN_eq] at hle
    rw [PREFIX_LEN_eq, SUFFIX_LEN_eq]
    omega
  have hrep : List.replicate PREFIX_LEN (0 : Byte) ++ List.replicate SUFFIX_LEN 0
      = List.replicate INLINE_LEN 0 := (List.replicate_add _ _ _).symm
  unfold clone zeroed copyFromSlice
  rw [if_pos hle]
  simp only [if_pos hle, hrep, hab, List.drop_replicate]
  rw [if_neg (Nat.not_lt.mpr hle)]

theorem clone_heap (h : Heap) (t : TinyBoxedStr) (p : Nat) (buf : List Byte)
    (l : Layout) (hgt : INLINE_LEN < t.len) (ht : t.trailing = .ptr p)
    (hlk : h.lookup p = some (buf, l)) (hbuf : buf.length = t.len)
    (hp : p < h.next) :
    clone h t =
      ((h.alloc (List.replicate t.len 0) (layout t.len)).1.write h.next buf,
        ⟨t.len, buf.take PREFIX_LEN, .ptr h.next⟩) := by
  have hpn : p ≠ h.next := Nat.ne_of_lt hp
  have hab1 : asBytes (h.alloc (List.replicate t.len 0) (layout t.len)).1 t
      = buf := by
    rw [asBytes_ptr _ _ p buf l hgt ht
      (by rw [Heap.lookup_alloc_ne _ _ _ _ hpn, hlk]), ← hbuf,
      List.take_length]
  have hab2 : asBytes
      ((h.alloc (List.replicate t.len 0) (layout t.len)).1.write h.next buf) t
      = buf := by
    rw [asBytes_ptr _ _ p buf l hgt ht
      (by rw [Heap.lookup_write_ne _ _ _ _ hpn,
        Heap.lookup_alloc_ne _ _ _ _ hpn, hlk]), ← hbuf, List.take_length]
  unfold clone zeroed copyFromSlice
  rw [if_neg (Nat.not_le.mpr hgt)]
  simp only [Heap.alloc_snd, if_neg (Nat.not_le.mpr hgt),
    Heap.lookup_alloc_self, hab1, hbuf, List.drop_replicate, Nat.sub_self,
    List.replicate_zero, List.append_nil]
  rw [if_pos hgt]
  simp only [hab2]

/-- The error cases of every construction path. -/
theorem tryFromStr_err (h : Heap) (s : List Byte) (hgt : MAX_LEN < s.length) :
    tryFromStr h s = (h, .error .tooLong) := by
  unfold tryFromStr
  rw [if_pos hgt]

theorem tryFromString_err (h : Heap) (st : RustString)
    (hgt : MAX_LEN < st.bytes.length) :
    tryFromString h st = (h, .error .tooLong) := by
  unfold tryFromString
  rw [if_neg (by rw [INLINE_LEN_eq]; rw [MAX_LEN_eq] at hgt; omega),
    if_pos hgt]

theorem tryFromCow_err (h : Heap) (c : Cow) (hgt : MAX_LEN < c.byteLen) :
    tryFromCow h c = (h, .error .tooLong) := by
  cases c with
  | borrowed s => exact tryFromStr_err h s hgt
  | owned st => exact tryFromString_err h st hgt

/-- The byte length of the view of a well-formed instance is its `len`. -/
theorem asBytes_length_of_wf (h : Heap) (t : TinyBoxedStr) (hw : Wf h t) :
    (asBytes h t).length = t.len := by
  rcases wf_elim h t hw with ⟨hmax, hpfx, hcase⟩
  rcases hcase with ⟨sfx, ht, hle, hsfx⟩ | ⟨p, buf, l, ht, hgt, hp, hlk, hbuf, hl⟩
  · rw [asBytes_suffix _ _ _ hle ht, List.length_take, List.length_append,
      hpfx, hsfx]
    rw [INLINE_LEN_eq] at hle
    rw [PREFIX_LEN_eq, SUFFIX_LEN_eq]
    omega
  · rw [asBytes_ptr _ _ p buf l hgt ht hlk, List.length_take, hbuf]
    omega

/-- A heap evolution that preserves every pointer below the fresh-pointer
mark preserves the view of every well-formed instance. -/
theorem asBytes_preserved_of_wf (h1 h2 : Heap) (t : TinyBoxedStr)
    (hw : Wf h1 t)
    (hpres : ∀ q, q ≠ h1.next → h2.lookup q = h1.lookup q) :
    asBytes h2 t = asBytes h1 t := by
  apply asBytes_congr
  intro p ht
  rcases wf_elim h1 t hw with ⟨-, -, hcase⟩
  rcases hcase with ⟨sfx, ht2, -, -⟩ | ⟨p2, buf, l, ht2, -, hp2, -, -, -⟩
  · rw [ht] at ht2
    exact absurd ht2 (by simp)
  · rw [ht] at ht2
    cases ht2
    exact hpres p (Nat.ne_of_lt hp2)

theorem asBytes_mk_suffix (h : Heap) (len : Nat) (pfxv sfx : List Byte)
    (hle : len ≤ INLINE_LEN) :
    asBytes h ⟨len, pfxv, .suffix sfx⟩ = (pfxv ++ sfx).take len := by
  simp [asBytes, hle]

theorem asBytes_mk_ptr (h : Heap) (len : Nat) (pfxv : List Byte) (p : Nat)
    (buf : List Byte) (l : Layout) (hgt : INLINE_LEN < len)
    (hlk : h.lookup p = some (buf, l)) :
    asBytes h ⟨len, pfxv, .ptr p⟩ = buf.take len := by
  simp [asBytes, Nat.not_le.mpr hgt, hlk]

/-- The bundle for `clone`. -/
theorem clone_ok (h : Heap) (t : TinyBoxedStr) (hw : Wf h t) :
    (clone h t).2.len = t.len ∧
    asBytes (clone h t).1 (clone h t).2 = asBytes h t ∧
    asBytes (clone h t).1 t = asBytes h t ∧
    Wf (clone h t).1 (clone h t).2 ∧
    (clone h t).2.inlineMode = t.inlineMode ∧
    (t.len ≤ INLINE_LEN →
      (clone h t).1 = h ∧ ∃ sfx, (clone h t).2.trailing = .suffix sfx) ∧
    (INLINE_LEN < t.len → ∃ p, t.trailing = .ptr p ∧
      (clone h t).2.trailing = .ptr h.next ∧ p ≠ h.next ∧
      (clone h t).1.lookup h.next = some (asBytes h t, layout t.len) ∧
      (clone h t).2.pfx = (asBytes h t).take PREFIX_LEN ∧
      (∀ q, q ≠ h.next → (clone h t).1.lookup q = h.lookup q)) := by
  rcases t with ⟨len, pfxv, tr⟩
  have hablen := asBytes_length_of_wf h ⟨len, pfxv, tr⟩ hw
  rcases wf_elim h ⟨len, pfxv, tr⟩ hw with ⟨hmax, hpfx, hcase⟩
  rcases hcase with ⟨sfx, ht, hle, hsfx⟩ | ⟨p, buf, l, ht, hgt, hp, hlk, hbuf, hl⟩
  · simp only at ht hle hmax hpfx hablen
    subst ht
    simp only [clone_inline h ⟨len, pfxv, .suffix sfx⟩ sfx hle rfl hpfx hsfx]
    have hlen : (asBytes h ⟨len, pfxv, Trailing.suffix sfx⟩
        ++ List.replicate (INLINE_LEN - len) 0).length = INLINE_LEN := by
      rw [List.length_append, List.length_replicate, hablen]
      rw [INLINE_LEN_eq] at hle ⊢
      omega
    refine ⟨by trivial, ?_, by trivial, ?_, by trivial,
      fun _ => ⟨by trivial, _, rfl⟩,
      fun hcon => absurd hcon (Nat.not_lt.mpr hle)⟩
    · rw [asBytes_mk_suffix _ _ _ _ hle, List.take_append_drop,
        List.take_left' hablen]
    · simp only [Wf, wfb]
      simp only [Bool.and_eq_true, decide_eq_true_eq, beq_iff_eq]
      refine ⟨⟨hmax, ?_⟩, hle, ?_⟩
      · rw [List.length_take, hlen]
        decide
      · rw [List.length_drop, hlen]
        decide
  · simp only at ht hgt hmax hpfx hablen hbuf hl
    subst ht
    subst hl
    have hab : asBytes h ⟨len, pfxv, .ptr p⟩ = buf := by
      rw [asBytes_mk_ptr _ _ _ _ buf _ hgt hlk, ← hbuf, List.take_length]
    simp only [clone_heap h ⟨len, pfxv, .ptr p⟩ p buf _ hgt rfl hlk hbuf hp]
    have hpn : p ≠ h.next := Nat.ne_of_lt hp
    have hlkB : ((h.alloc (List.replicate len 0)
          (layout len)).1.write h.next buf).lookup h.next
        = some (buf, layout len) := by
      rw [Heap.lookup_write_self, Heap.lookup_alloc_self]
      rfl
    have hpresB : ∀ q, q ≠ h.next →
        ((h.alloc (List.replicate len 0)
          (layout len)).1.write h.next buf).lookup q = h.lookup q := by
      intro q hq
      rw [Heap.lookup_write_ne _ _ _ _ hq, Heap.lookup_alloc_ne _ _ _ _ hq]
    refine ⟨by trivial, ?_, ?_, ?_, by trivial,
      fun hcon => absurd hgt (Nat.not_lt.mpr hcon),
      fun _ => ⟨p, by trivial, by trivial, hpn, by rw [hab]; exact hlkB,
        by rw [hab], hpresB⟩⟩
    · rw [asBytes_mk_ptr _ _ _ _ buf _ hgt hlkB, hab, ← hbuf,
        List.take_length]
    · rw [asBytes_mk_ptr _ _ _ p buf _ hgt
        (by rw [hpresB p hpn]; exact hlk), hab, ← hbuf, List.take_length]
    · simp only [Wf, wfb, blockWf, hlkB]
      simp only [Bool.and_eq_true, decide_eq_true_eq, beq_iff_eq]
      refine ⟨⟨hmax, ?_⟩, ⟨hgt, ?_⟩, hbuf, by trivial⟩
      · rw [List.length_take, hbuf]
        have := hgt
        rw [INLINE_LEN_eq] at this
        rw [PREFIX_LEN_eq]
        omega
      · rw [Heap.write_next, Heap.alloc_next]
        omega

end TinyBoxedStr

/-! ### Struct-size arithmetic -/

theorem alignUp_mul (w k : Nat) (hw : 0 < w) : alignUp (w * k) w = w * k := by
  unfold alignUp
  have h1 : w * k + w - 1 = w * k + (w - 1) := by omega
  rw [h1, Nat.mul_add_div hw, Nat.div_eq_of_lt (by omega), Nat.add_zero]

theorem alignUp_zero (w : Nat) (hw : 0 < w) : alignUp 0 w = 0 := by
  have := alignUp_mul w 0 hw
  rwa [Nat.mul_zero] at this

theorem alignUp_self (w : Nat) (hw : 0 < w) : alignUp w w = w := by
  have := alignUp_mul w 1 hw
  rwa [Nat.mul_one] at this

theorem trailingLayout_eq (w : Nat) (hw : 0 < w) : trailingLayout w = ⟨w, w⟩ := by
  unfold trailingLayout unionLayout byteArrayLayout usizeLayout
  simp only [List.foldl]
  have hm1 : max (max 1 1) w = w := by omega
  have hm2 : max (max 0 w) w = w := by omega
  rw [hm1, hm2, alignUp_self w hw]

theorem tinyBoxedStrLayout_size (w : Nat) (hw : 0 < w) :
    (tinyBoxedStrLayout w).size = 2 * w := by
  unfold tinyBoxedStrLayout reprC u8Layout byteArrayLayout
  rw [trailingLayout_eq w hw]
  simp only [List.foldl]
  have e1 : alignUp (alignUp 0 1 + 1) 1 = 1 := rfl
  rw [e1]
  have e2 : 1 + (w - 1) = w := by omega
  rw [e2, alignUp_self w hw]
  have e4 : max (max (max 1 1) 1) w = w := by omega
  rw [e4]
  have e5 : w + w = w * 2 := by omega
  rw [e5, alignUp_mul w 2 hw]
  omega

theorem ptrLenCapLayout_size (w : Nat) (hw : 0 < w) :
    (ptrLenCapLayout w).size = 3 * w := by
  unfold ptrLenCapLayout reprC usizeLayout
  simp only [List.foldl]
  rw [alignUp_zero w hw, Nat.zero_add, alignUp_self w hw]
  have e2 : w + w = w * 2 := by omega
  rw [e2, alignUp_mul w 2 hw]
  have e3 : w * 2 + w = w * 3 := by omega
  rw [e3]
  have e4 : max (max (max 1 w) w) w = w := by omega
  rw [e4, alignUp_mul w 3 hw]
  omega

/-! ### Elimination helpers for the claims -/

open TinyBoxedStr

theorem ok_le_max_str (h : Heap) (s : List Byte) (t : TinyBoxedStr)
    (hok : (tryFromStr h s).2 = .ok t) : s.length ≤ MAX_LEN := by
  by_contra hcon
  rw [tryFromStr_err h s (Nat.lt_of_not_le hcon)] at hok
  simp at hok

theorem ok_le_max_string (h : Heap) (st : RustString) (t : TinyBoxedStr)
    (hok : (tryFromString h st).2 = .ok t) : st.bytes.length ≤ MAX_LEN := by
  by_contra hcon
  rw [tryFromString_err h st (Nat.lt_of_not_le hcon)] at hok
  simp at hok

theorem tryFromStr_ok_elim (h : Heap) (s : List Byte) (t : TinyBoxedStr)
    (hok : (tryFromStr h s).2 = .ok t) :
    t.len = s.length ∧
    asBytes (tryFromStr h s).1 t = s ∧
    Wf (tryFromStr h s).1 t ∧
    (s.length ≤ INLINE_LEN →
      (tryFromStr h s).1 = h ∧ ∃ sfx, t.trailing = .suffix sfx) ∧
    (INLINE_LEN < s.length →
      t.pfx = s.take PREFIX_LEN ∧ t.trailing = .ptr h.next ∧
      (tryFromStr h s).1.lookup h.next = some (s, layout s.length)) ∧
    (∀ q, q ≠ h.next → (tryFromStr h s).1.lookup q = h.lookup q) := by
  have hmax := ok_le_max_str h s t hok
  obtain ⟨t0, hok0, hlen, hab, hwf, hinl, hheap, hpres, -⟩ := tryFromStr_ok h s hmax
  rw [hok] at hok0
  cases hok0
  exact ⟨hlen, hab, hwf, hinl, hheap, hpres⟩

theorem tryFromString_ok_elim (h : Heap) (st : RustString) (t : TinyBoxedStr)
    (hok : (tryFromString h st).2 = .ok t) :
    t.len = st.bytes.length ∧
    asBytes (tryFromString h st).1 t = st.bytes ∧
    Wf (tryFromString h st).1 t ∧
    (st.bytes.length ≤ INLINE_LEN →
      (tryFromString h st).1 = h ∧ ∃ sfx, t.trailing = .suffix sfx) ∧
    (INLINE_LEN < st.bytes.length →
      t.pfx = st.bytes.take PREFIX_LEN ∧ t.trailing = .ptr h.next ∧
      (tryFromString h st).1.lookup h.next
        = some (st.bytes, layout st.bytes.length)) ∧
    (∀ q, q ≠ h.next → (tryFromString h st).1.lookup q = h.lookup q) := by
  have hmax := ok_le_max_string h st t hok
  obtain ⟨t0, hok0, hlen, hab, hwf, hinl, hheap, hpres, -⟩ :=
    tryFromString_ok h st hmax
  rw [hok] at hok0
  cases hok0
  exact ⟨hlen, hab, hwf, hinl, hheap, hpres⟩

/-- Derive the storage-mode characterization from the per-path bundles. -/
theorem mode_spec_of_parts (hres : Heap) (pNew : Nat) (content : List Byte)
    (t : TinyBoxedStr) (n : Nat) (hlen : t.len = n) (hclen : content.length = n)
    (hinl : n ≤ INLINE_LEN → ∃ sfx, t.trailing = .suffix sfx)
    (hheap : INLINE_LEN < n → t.trailing = .ptr pNew ∧
      hres.lookup pNew = some (content, layout n)) :
    (t.inlineMode = true ↔ t.len ≤ INLINE_LEN) ∧
    (INLINE_LEN < t.len → ∃ p buf l, t.trailing = .ptr p ∧
      hres.lookup p = some (buf, l) ∧ buf.length = t.len) := by
  subst hlen
  by_cases hle : t.len ≤ INLINE_LEN
  · obtain ⟨sfx, htr⟩ := hinl hle
    exact ⟨iff_of_true (by simp [inlineMode, htr]) hle,
      fun hcon => absurd hle (Nat.not_le.mpr hcon)⟩
  · have hgt := Nat.lt_of_not_le hle
    obtain ⟨htr, hlk⟩ := hheap hgt
    exact ⟨iff_of_false (by simp [inlineMode, htr]) hle,
      fun _ => ⟨pNew, content, layout t.len, htr, hlk, hclen⟩⟩

/-! ### The claims -/

/-- C1: for every UTF-8 string `s` (modelled by its byte list) whose byte
length is between 0 and 255 inclusive, the borrowed-text construction
(`TryFrom<&str>`) succeeds, and the resulting instance's string view
(`as_str`, whose bytes are exactly `as_bytes`) equals `s` exactly. -/
theorem from_str_roundtrips_up_to_255 (h : Heap) (s : List Byte)
    (hs : s.length ≤ MAX_LEN) :
    ∃ t, (tryFromStr h s).2 = .ok t ∧ asBytes (tryFromStr h s).1 t = s := by
  obtain ⟨t, h1, -, h3, -⟩ := tryFromStr_ok h s hs
  exact ⟨t, h1, h3⟩

/-- Witness for C1 at `s = "hi"` (bytes `[104, 105]`). -/
theorem from_str_roundtrips_up_to_255_witness :
    ∃ t, (tryFromStr Heap.empty [104, 105]).2 = .ok t ∧
      asBytes (tryFromStr Heap.empty [104, 105]).1 t = [104, 105] :=
  from_str_roundtrips_up_to_255 Heap.empty [104, 105] (by decide)

/-- C2: for every input whose byte length exceeds 255, every construction
path — borrowed text, owned growable buffer, copy-on-write value, and the
rope-slice excerpt (which converts to a copy-on-write value of the same byte
length) — fails with the `TooLong` error and leaves the heap completely
unchanged (same blocks, same allocation count): the error is raised before
any allocation decision and no allocation is performed. -/
theorem too_long_fails_without_allocating :
    (∀ (h : Heap) (s : List Byte), MAX_LEN < s.length →
      tryFromStr h s = (h, .error .tooLong)) ∧
    (∀ (h : Heap) (st : RustString), MAX_LEN < st.bytes.length →
      tryFromString h st = (h, .error .tooLong)) ∧
    (∀ (h : Heap) (c : Cow), MAX_LEN < c.byteLen →
      tryFromCow h c = (h, .error .tooLong)) ∧
    (∀ (h : Heap) (c : Cow), MAX_LEN < c.byteLen →
      tryFromRopeSlice h c = (h, .error .tooLong)) :=
  ⟨tryFromStr_err, tryFromString_err, tryFromCow_err,
    fun h c hgt => tryFromCow_err h c hgt⟩

set_option maxRecDepth 8192 in
/-- Witness for C2 on a 256-byte input through all four paths. -/
theorem too_long_fails_without_allocating_witness :
    tryFromStr Heap.empty (List.replicate 256 97)
      = (Heap.empty, .error .tooLong) ∧
    tryFromString Heap.empty ⟨List.replicate 256 97, 300⟩
      = (Heap.empty, .error .tooLong) ∧
    tryFromCow Heap.empty (.borrowed (List.replicate 256 97))
      = (Heap.empty, .error .tooLong) ∧
    tryFromRopeSlice Heap.empty (.owned ⟨List.replicate 256 97, 256⟩)
      = (Heap.empty, .error .tooLong) :=
  ⟨too_long_fails_without_allocating.1 Heap.empty _ (by simp [MAX_LEN_eq]),
    too_long_fails_without_allocating.2.1 Heap.empty _ (by simp [MAX_LEN_eq]),
    too_long_fails_without_allocating.2.2.1 Heap.empty _ (by simp [MAX_LEN_eq, Cow.byteLen]),
    too_long_fails_without_allocating.2.2.2 Heap.empty _ (by simp [MAX_LEN_eq, Cow.byteLen])⟩

/-- C3: the storage mode of every constructed instance is a pure function of
its length alone — there is no independent tag bit, the union interpretation
is selected by comparing `len` with `INLINE_LEN = PREFIX_LEN + SUFFIX_LEN`
(2×word − 1 = 15 on 64-bit): content is inline iff `len ≤ INLINE_LEN`, and
otherwise lives in a heap buffer of exactly `len` bytes; in particular a
255-byte string is stored in heap mode. Stated for every construction path
and for `clone`. -/
theorem storage_mode_is_function_of_length :
    (∀ (h : Heap) (s : List Byte) (t : TinyBoxedStr),
      (tryFromStr h s).2 = .ok t →
        ((t.inlineMode = true ↔ t.len ≤ INLINE_LEN) ∧
         (INLINE_LEN < t.len → ∃ p buf l, t.trailing = .ptr p ∧
           (tryFromStr h s).1.lookup p = some (buf, l) ∧
           buf.length = t.len))) ∧
    (∀ (h : Heap) (st : RustString) (t : TinyBoxedStr),
      (tryFromString h st).2 = .ok t →
        ((t.inlineMode = true ↔ t.len ≤ INLINE_LEN) ∧
         (INLINE_LEN < t.len → ∃ p buf l, t.trailing = .ptr p ∧
           (tryFromString h st).1.lookup p = some (buf, l) ∧
           buf.length = t.len))) ∧
    (∀ (h : Heap) (c : Cow) (t : TinyBoxedStr),
      (tryFromCow h c).2 = .ok t →
        ((t.inlineMode = true ↔ t.len ≤ INLINE_LEN) ∧
         (INLINE_LEN < t.len → ∃ p buf l, t.trailing = .ptr p ∧
           (tryFromCow h c).1.lookup p = some (buf, l) ∧
           buf.length = t.len))) ∧
    (∀ (h : Heap) (t : TinyBoxedStr), Wf h t →
        (((clone h t).2.inlineMode = true ↔ (clone h t).2.len ≤ INLINE_LEN) ∧
         (INLINE_LEN < (clone h t).2.len → ∃ p buf l,
           (clone h t).2.trailing = .ptr p ∧
           (clone h t).1.lookup p = some (buf, l) ∧
           buf.length = (clone h t).2.len))) ∧
    (∀ (h : Heap) (s : List Byte) (t : TinyBoxedStr), s.length = 255 →
      (tryFromStr h s).2 = .ok t → t.inlineMode = false) := by
  have hstr : ∀ (h : Heap) (s : List Byte) (t : TinyBoxedStr),
      (tryFromStr h s).2 = .ok t →
        ((t.inlineMode = true ↔ t.len ≤ INLINE_LEN) ∧
         (INLINE_LEN < t.len → ∃ p buf l, t.trailing = .ptr p ∧
           (tryFromStr h s).1.lookup p = some (buf, l) ∧
           buf.length = t.len)) := by
    intro h s t hok
    obtain ⟨hlen, -, -, hinl, hheap, -⟩ := tryFromStr_ok_elim h s t hok
    exact mode_spec_of_parts _ h.next s t s.length hlen rfl
      (fun hle => (hinl hle).2)
      (fun hgt => ⟨(hheap hgt).2.1, (hheap hgt).2.2⟩)
  have hstring : ∀ (h : Heap) (st : RustString) (t : TinyBoxedStr),
      (tryFromString h st).2 = .ok t →
        ((t.inlineMode = true ↔ t.len ≤ INLINE_LEN) ∧
         (INLINE_LEN < t.len → ∃ p buf l, t.trailing = .ptr p ∧
           (tryFromString h st).1.lookup p = some (buf, l) ∧
           buf.length = t.len)) := by
    intro h st t hok
    obtain ⟨hlen, -, -, hinl, hheap, -⟩ := tryFromString_ok_elim h st t hok
    exact mode_spec_of_parts _ h.next st.bytes t st.bytes.length hlen rfl
      (fun hle => (hinl hle).2)
      (fun hgt => ⟨(hheap hgt).2.1, (hheap hgt).2.2⟩)
  refine ⟨hstr, hstring, ?_, ?_, ?_⟩
  · intro h c t hok
    cases c with
    | borrowed s => exact hstr h s t hok
    | owned st => exact hstring h st t hok
  · intro h t hw
    obtain ⟨hlen, -, -, -, -, hinl, hheap⟩ := clone_ok h t hw
    refine mode_spec_of_parts _ h.next (asBytes h t) (clone h t).2 t.len hlen
      (asBytes_length_of_wf h t hw) (fun hle => (hinl hle).2) ?_
    intro hgt
    obtain ⟨p, -, ht2, -, hlk, -, -⟩ := hheap hgt
    exact ⟨ht2, hlk⟩
  · intro h s t h255 hok
    obtain ⟨hlen, -, -, -, hheap, -⟩ := tryFromStr_ok_elim h s t hok
    have hgt : INLINE_LEN < s.length := by
      rw [h255]
      decide
    obtain ⟨-, htr, -⟩ := hheap hgt
    simp [inlineMode, htr]

set_option maxRecDepth 8192 in
/-- Witness for C3: a heap-mode instance from 16 bytes, an inline clone, and
the 255-byte heap-mode case. -/
theorem storage_mode_is_function_of_length_witness :
    (((⟨16, List.replicate 7 97, .ptr 1⟩ : TinyBoxedStr).inlineMode = true ↔
        (⟨16, List.replicate 7 97, .ptr 1⟩ : TinyBoxedStr).len ≤ INLINE_LEN) ∧
      (INLINE_LEN < (⟨16, List.replicate 7 97, .ptr 1⟩ : TinyBoxedStr).len →
        ∃ p buf l,
          (⟨16, List.replicate 7 97, .ptr 1⟩ : TinyBoxedStr).trailing
            = .ptr p ∧
          (tryFromStr Heap.empty (List.replicate 16 97)).1.lookup p
            = some (buf, l) ∧
          buf.length
            = (⟨16, List.replicate 7 97, .ptr 1⟩ : TinyBoxedStr).len)) ∧
    ((⟨255, List.replicate 7 97, .ptr 1⟩ : TinyBoxedStr).inlineMode
      = false) :=
  ⟨storage_mode_is_function_of_length.1 Heap.empty (List.replicate 16 97)
      ⟨16, List.replicate 7 97, .ptr 1⟩ (by decide),
    storage_mode_is_function_of_length.2.2.2.2 Heap.empty
      (List.replicate 255 97) ⟨255, List.replicate 7 97, .ptr 1⟩ (by decide)
      (by decide)⟩

/-- C4: the construction paths and `clone` all establish the well-formedness
invariant; a well-formed inline instance (`len ≤ INLINE_LEN`) is dropped
without any dealloc action, and a well-formed heap instance
(`INLINE_LEN < len`) is dropped by deallocating exactly its buffer pointer
with exactly the layout `l` that was recorded for that block at allocation
time — `drop` recomputes it as `layout len`, the same function used at the
allocation site. -/
theorem drop_layout_matches_allocation :
    (∀ (h : Heap) (s : List Byte) (t : TinyBoxedStr),
      (tryFromStr h s).2 = .ok t → Wf (tryFromStr h s).1 t) ∧
    (∀ (h : Heap) (st : RustString) (t : TinyBoxedStr),
      (tryFromString h st).2 = .ok t → Wf (tryFromString h st).1 t) ∧
    (∀ (h : Heap) (c : Cow) (t : TinyBoxedStr),
      (tryFromCow h c).2 = .ok t → Wf (tryFromCow h c).1 t) ∧
    (∀ (h : Heap) (t : TinyBoxedStr), Wf h t →
      Wf (clone h t).1 (clone h t).2) ∧
    (∀ (h : Heap) (t : TinyBoxedStr), Wf h t → t.len ≤ INLINE_LEN →
      TinyBoxedStr.drop h t = (h, none)) ∧
    (∀ (h : Heap) (t : TinyBoxedStr), Wf h t → INLINE_LEN < t.len →
      ∃ p buf l, t.trailing = .ptr p ∧ h.lookup p = some (buf, l) ∧
        TinyBoxedStr.drop h t = (h.dealloc p, some (p, l))) := by
  have hstr : ∀ (h : Heap) (s : List Byte) (t : TinyBoxedStr),
      (tryFromStr h s).2 = .ok t → Wf (tryFromStr h s).1 t :=
    fun h s t hok => (tryFromStr_ok_elim h s t hok).2.2.1
  have hstring : ∀ (h : Heap) (st : RustString) (t : TinyBoxedStr),
      (tryFromString h st).2 = .ok t → Wf (tryFromString h st).1 t :=
    fun h st t hok => (tryFromString_ok_elim h st t hok).2.2.1
  refine ⟨hstr, hstring, ?_, ?_, ?_, ?_⟩
  · intro h c t hok
    cases c with
    | borrowed s => exact hstr h s t hok
    | owned st => exact hstring h st t hok
  · exact fun h t hw => (clone_ok h t hw).2.2.2.1
  · exact fun h t _ hle => drop_of_inline h t hle
  · intro h t hw hgt
    rcases wf_elim h t hw with ⟨-, -, hcase⟩
    rcases hcase with ⟨sfx, -, hle, -⟩ | ⟨p, buf, l, htr, -, -, hlk, -, hl⟩
    · exact absurd hgt (Nat.not_lt.mpr hle)
    · exact ⟨p, buf, l, htr, hlk,
        by rw [drop_of_ptr h t p hgt htr, hl]⟩

/-- Witness for C4: well-formedness of a 2-byte construction, no-op drop of
an inline instance, and layout-matched drop of a 16-byte heap instance. -/
theorem drop_layout_matches_allocation_witness :
    Wf (tryFromStr Heap.empty [104, 105]).1
      ⟨2, [104, 105, 0, 0, 0, 0, 0], .suffix [0, 0, 0, 0, 0, 0, 0, 0]⟩ ∧
    TinyBoxedStr.drop Heap.empty
      (⟨2, [104, 105, 0, 0, 0, 0, 0], .suffix [0, 0, 0, 0, 0, 0, 0, 0]⟩
        : TinyBoxedStr) = (Heap.empty, none) ∧
    (∃ p buf l,
      (⟨16, List.replicate 7 97, .ptr 1⟩ : TinyBoxedStr).trailing = .ptr p ∧
      Heap.lookup ⟨2, [(1, List.replicate 16 97, ⟨16, 1⟩)], 1⟩ p
        = some (buf, l) ∧
      TinyBoxedStr.drop ⟨2, [(1, List.replicate 16 97, ⟨16, 1⟩)], 1⟩
          ⟨16, List.replicate 7 97, .ptr 1⟩
        = (Heap.dealloc ⟨2, [(1, List.replicate 16 97, ⟨16, 1⟩)], 1⟩ p,
            some (p, l))) :=
  ⟨drop_layout_matches_allocation.1 Heap.empty [104, 105] _ (by decide),
    drop_layout_matches_allocation.2.2.2.2.1 Heap.empty _ (by decide)
      (by decide),
    drop_layout_matches_allocation.2.2.2.2.2
      ⟨2, [(1, List.replicate 16 97, ⟨16, 1⟩)], 1⟩
      ⟨16, List.replicate 7 97, .ptr 1⟩ (by decide) (by decide)⟩

/-- C5: on every construction path and on `clone`, a heap-mode result's
prefix region equals the first `PREFIX_LEN = word_size − 1` bytes of its heap
buffer's content. -/
theorem heap_prefix_mirrors_buffer :
    (∀ (h : Heap) (s : List Byte) (t : TinyBoxedStr),
      (tryFromStr h s).2 = .ok t → INLINE_LEN < t.len →
      ∃ p buf l, t.trailing = .ptr p ∧
        (tryFromStr h s).1.lookup p = some (buf, l) ∧
        t.pfx = buf.take PREFIX_LEN) ∧
    (∀ (h : Heap) (st : RustString) (t : TinyBoxedStr),
      (tryFromString h st).2 = .ok t → INLINE_LEN < t.len →
      ∃ p buf l, t.trailing = .ptr p ∧
        (tryFromString h st).1.lookup p = some (buf, l) ∧
        t.pfx = buf.take PREFIX_LEN) ∧
    (∀ (h : Heap) (c : Cow) (t : TinyBoxedStr),
      (tryFromCow h c).2 = .ok t → INLINE_LEN < t.len →
      ∃ p buf l, t.trailing = .ptr p ∧
        (tryFromCow h c).1.lookup p = some (buf, l) ∧
        t.pfx = buf.take PREFIX_LEN) ∧
    (∀ (h : Heap) (t : TinyBoxedStr), Wf h t →
      INLINE_LEN < (clone h t).2.len →
      ∃ p buf l, (clone h t).2.trailing = .ptr p ∧
        (clone h t).1.lookup p = some (buf, l) ∧
        (clone h t).2.pfx = buf.take PREFIX_LEN) := by
  have hstr : ∀ (h : Heap) (s : List Byte) (t : TinyBoxedStr),
      (tryFromStr h s).2 = .ok t → INLINE_LEN < t.len →
      ∃ p buf l, t.trailing = .ptr p ∧
        (tryFromStr h s).1.lookup p = some (buf, l) ∧
        t.pfx = buf.take PREFIX_LEN := by
    intro h s t hok hgt
    obtain ⟨hlen, -, -, -, hheap, -⟩ := tryFromStr_ok_elim h s t hok
    rw [hlen] at hgt
    obtain ⟨hpfx, htr, hlk⟩ := hheap hgt
    exact ⟨h.next, s, layout s.length, htr, hlk, hpfx⟩
  have hstring : ∀ (h : Heap) (st : RustString) (t : TinyBoxedStr),
      (tryFromString h st).2 = .ok t → INLINE_LEN < t.len →
      ∃ p buf l, t.trailing = .ptr p ∧
        (tryFromString h st).1.lookup p = some (buf, l) ∧
        t.pfx = buf.take PREFIX_LEN := by
    intro h st t hok hgt
    obtain ⟨hlen, -, -, -, hheap, -⟩ := tryFromString_ok_elim h st t hok
    rw [hlen] at hgt
    obtain ⟨hpfx, htr, hlk⟩ := hheap hgt
    exact ⟨h.next, st.bytes, layout st.bytes.length, htr, hlk, hpfx⟩
  refine ⟨hstr, hstring, ?_, ?_⟩
  · intro h c t hok hgt
    cases c with
    | borrowed s => exact hstr h s t hok hgt
    | owned st => exact hstring h st t hok hgt
  · intro h t hw hgt
    obtain ⟨hlen, -, -, -, -, -, hheap⟩ := clone_ok h t hw
    rw [hlen] at hgt
    obtain ⟨p, -, ht2, -, hlk, hpfx, -⟩ := hheap hgt
    exact ⟨h.next, asBytes h t, layout t.len, ht2, hlk, hpfx⟩

/-- Witness for C5 at the 16-byte borrowed-text construction. -/
theorem heap_prefix_mirrors_buffer_witness :
    ∃ p buf l,
      (⟨16, List.replicate 7 97, .ptr 1⟩ : TinyBoxedStr).trailing = .ptr p ∧
      (tryFromStr Heap.empty (List.replicate 16 97)).1.lookup p
        = some (buf, l) ∧
      (⟨16, List.replicate 7 97, .ptr 1⟩ : TinyBoxedStr).pfx
        = buf.take PREFIX_LEN :=
  heap_prefix_mirrors_buffer.1 Heap.empty (List.replicate 16 97)
    ⟨16, List.replicate 7 97, .ptr 1⟩ (by decide) (by decide)

/-- C6: for every well-formed (constructed) instance `t`, `clone` produces a
value with the same length, the same string view, and the same storage mode,
without touching `t`'s own view; in heap mode the clone owns a fresh pointer
distinct from `t`'s (no sharing, no reference counting), and dropping either
value leaves the other's byte view unchanged. -/
theorem clone_is_deep_and_independent (h : Heap) (t : TinyBoxedStr)
    (hw : Wf h t) :
    (clone h t).2.len = t.len ∧
    asBytes (clone h t).1 (clone h t).2 = asBytes h t ∧
    asBytes (clone h t).1 t = asBytes h t ∧
    (clone h t).2.inlineMode = t.inlineMode ∧
    (INLINE_LEN < t.len → ∃ p p2, t.trailing = .ptr p ∧
      (clone h t).2.trailing = .ptr p2 ∧ p ≠ p2) ∧
    asBytes (TinyBoxedStr.drop (clone h t).1 (clone h t).2).1 t
      = asBytes h t ∧
    asBytes (TinyBoxedStr.drop (clone h t).1 t).1 (clone h t).2
      = asBytes (clone h t).1 (clone h t).2 := by
  obtain ⟨hlen, hab2, hab1, -, hmode, hinl, hheap⟩ := clone_ok h t hw
  refine ⟨hlen, hab2, hab1, hmode, ?_, ?_, ?_⟩
  · intro hgt
    obtain ⟨p, htp, ht2, hpn, -, -, -⟩ := hheap hgt
    exact ⟨p, h.next, htp, ht2, hpn⟩
  · by_cases hle : t.len ≤ INLINE_LEN
    · rw [drop_of_inline _ _ (by rw [hlen]; exact hle)]
      exact hab1
    · have hgt := Nat.lt_of_not_le hle
      obtain ⟨p, htp, ht2, hpn, -, -, -⟩ := hheap hgt
      rw [drop_of_ptr _ _ h.next (by rw [hlen]; exact hgt) ht2]
      have hstep : asBytes ((clone h t).1.dealloc h.next) t
          = asBytes (clone h t).1 t := by
        apply asBytes_congr
        intro q htq
        rw [htp] at htq
        cases htq
        exact Heap.lookup_dealloc_ne _ _ _ hpn
      exact hstep.trans hab1
  · by_cases hle : t.len ≤ INLINE_LEN
    · rw [drop_of_inline _ _ hle]
    · have hgt := Nat.lt_of_not_le hle
      obtain ⟨p, htp, ht2, hpn, -, -, -⟩ := hheap hgt
      rw [drop_of_ptr _ _ p hgt htp]
      apply asBytes_congr
      intro q htq
      rw [ht2] at htq
      cases htq
      exact Heap.lookup_dealloc_ne _ _ _ (Ne.symm hpn)

/-- Witness for C6 at a 16-byte heap-mode instance. -/
theorem clone_is_deep_and_independent_witness :
    ((clone ⟨2, [(1, List.replicate 16 97, ⟨16, 1⟩)], 1⟩
        ⟨16, List.replicate 7 97, .ptr 1⟩).2.len
      = (⟨16, List.replicate 7 97, .ptr 1⟩ : TinyBoxedStr).len) ∧
    (asBytes (clone ⟨2, [(1, List.replicate 16 97, ⟨16, 1⟩)], 1⟩
        ⟨16, List.replicate 7 97, .ptr 1⟩).1
        (clone ⟨2, [(1, List.replicate 16 97, ⟨16, 1⟩)], 1⟩
          ⟨16, List.replicate 7 97, .ptr 1⟩).2
      = asBytes ⟨2, [(1, List.replicate 16 97, ⟨16, 1⟩)], 1⟩
          ⟨16, List.replicate 7 97, .ptr 1⟩) ∧
    (asBytes (clone ⟨2, [(1, List.replicate 16 97, ⟨16, 1⟩)], 1⟩
        ⟨16, List.replicate 7 97, .ptr 1⟩).1
        ⟨16, List.replicate 7 97, .ptr 1⟩
      = asBytes ⟨2, [(1, List.replicate 16 97, ⟨16, 1⟩)], 1⟩
          ⟨16, List.replicate 7 97, .ptr 1⟩) ∧
    ((clone ⟨2, [(1, List.replicate 16 97, ⟨16, 1⟩)], 1⟩
        ⟨16, List.replicate 7 97, .ptr 1⟩).2.inlineMode
      = (⟨16, List.replicate 7 97, .ptr 1⟩ : TinyBoxedStr).inlineMode) ∧
    (INLINE_LEN < (⟨16, List.replicate 7 97, .ptr 1⟩ : TinyBoxedStr).len →
      ∃ p p2, (⟨16, List.replicate 7 97, .ptr 1⟩ : TinyBoxedStr).trailing
          = .ptr p ∧
        (clone ⟨2, [(1, List.replicate 16 97, ⟨16, 1⟩)], 1⟩
          ⟨16, List.replicate 7 97, .ptr 1⟩).2.trailing = .ptr p2 ∧
        p ≠ p2) ∧
    (asBytes (TinyBoxedStr.drop
        (clone ⟨2, [(1, List.replicate 16 97, ⟨16, 1⟩)], 1⟩
          ⟨16, List.replicate 7 97, .ptr 1⟩).1
        (clone ⟨2, [(1, List.replicate 16 97, ⟨16, 1⟩)], 1⟩
          ⟨16, List.replicate 7 97, .ptr 1⟩).2).1
        ⟨16, List.replicate 7 97, .ptr 1⟩
      = asBytes ⟨2, [(1, List.replicate 16 97, ⟨16, 1⟩)], 1⟩
          ⟨16, List.replicate 7 97, .ptr 1⟩) ∧
    (asBytes (TinyBoxedStr.drop
        (clone ⟨2, [(1, List.replicate 16 97, ⟨16, 1⟩)], 1⟩
          ⟨16, List.replicate 7 97, .ptr 1⟩).1
        ⟨16, List.replicate 7 97, .ptr 1⟩).1
        (clone ⟨2, [(1, List.replicate 16 97, ⟨16, 1⟩)], 1⟩
          ⟨16, List.replicate 7 97, .ptr 1⟩).2
      = asBytes (clone ⟨2, [(1, List.replicate 16 97, ⟨16, 1⟩)], 1⟩
          ⟨16, List.replicate 7 97, .ptr 1⟩).1
          (clone ⟨2, [(1, List.replicate 16 97, ⟨16, 1⟩)], 1⟩
            ⟨16, List.replicate 7 97, .ptr 1⟩).2) :=
  clone_is_deep_and_independent ⟨2, [(1, List.replicate 16 97, ⟨16, 1⟩)], 1⟩
    ⟨16, List.replicate 7 97, .ptr 1⟩ (by decide)

/-- C7: value equality is exactly equality of string views (content), and
equal content hashes identically under any hasher; this is independent of
storage mode and raw layout — the equality test reads only the resolved byte
views, as the cross-mode construction instance in the last conjunct shows. -/
theorem equality_and_hash_follow_content (h : Heap) :
    (∀ a b : TinyBoxedStr, beq h a b = true ↔ asBytes h a = asBytes h b) ∧
    (∀ (hasher : List Byte → Nat) (a b : TinyBoxedStr),
      asBytes h a = asBytes h b →
      hashWith hasher h a = hashWith hasher h b) ∧
    (∀ (s : List Byte) (st : RustString) (h1 h2 : Heap)
        (a b : TinyBoxedStr),
      tryFromStr h s = (h1, .ok a) →
      tryFromString h1 st = (h2, .ok b) →
      (beq h2 a b = true ↔ s = st.bytes)) := by
  refine ⟨?_, ?_, ?_⟩
  · intro a b
    simp [beq]
  · intro hasher a b hab
    simp [hashWith, hab]
  · intro s st h1 h2 a b hca hcb
    have hoka : (tryFromStr h s).2 = .ok a := by rw [hca]
    obtain ⟨-, hab, hwf, -, -, -⟩ := tryFromStr_ok_elim h s a hoka
    have hokb : (tryFromString h1 st).2 = .ok b := by rw [hcb]
    obtain ⟨-, habb, -, -, -, hpresb⟩ := tryFromString_ok_elim h1 st b hokb
    have hh1 : (tryFromStr h s).1 = h1 := by rw [hca]
    have hh2 : (tryFromString h1 st).1 = h2 := by rw [hcb]
    rw [hh1] at hab hwf
    rw [hh2] at habb hpresb
    have hpab : asBytes h2 a = asBytes h1 a :=
      asBytes_preserved_of_wf h1 h2 a hwf hpresb
    simp only [beq]
    rw [hpab, hab, habb]
    simp

/-- Witness for C7: a heap-mode borrowed construction compared, across the
two heaps, with an owned-buffer construction of different content. -/
theorem equality_and_hash_follow_content_witness :
    (beq Heap.empty ⟨2, [104, 105, 0, 0, 0, 0, 0], .suffix [0, 0, 0, 0, 0, 0, 0, 0]⟩
        ⟨2, [104, 105, 0, 0, 0, 0, 0], .suffix [0, 0, 0, 0, 0, 0, 0, 0]⟩ = true ↔
      asBytes Heap.empty
          ⟨2, [104, 105, 0, 0, 0, 0, 0], .suffix [0, 0, 0, 0, 0, 0, 0, 0]⟩
        = asBytes Heap.empty
          ⟨2, [104, 105, 0, 0, 0, 0, 0], .suffix [0, 0, 0, 0, 0, 0, 0, 0]⟩) ∧
    (hashWith List.length Heap.empty
        ⟨2, [104, 105, 0, 0, 0, 0, 0], .suffix [0, 0, 0, 0, 0, 0, 0, 0]⟩
      = hashWith List.length Heap.empty
        ⟨2, [104, 105, 0, 0, 0, 0, 0], .suffix [0, 0, 0, 0, 0, 0, 0, 0]⟩) ∧
    (beq ⟨3, [(2, List.replicate 16 98, ⟨16, 1⟩),
          (1, List.replicate 16 97, ⟨16, 1⟩)], 1⟩
        ⟨16, List.replicate 7 97, .ptr 1⟩
        ⟨16, List.replicate 7 98, .ptr 2⟩ = true ↔
      List.replicate 16 97 = List.replicate 16 98) :=
  ⟨(equality_and_hash_follow_content Heap.empty).1 _ _,
    (equality_and_hash_follow_content Heap.empty).2.1 List.length _ _ rfl,
    (equality_and_hash_follow_content Heap.empty).2.2
      (List.replicate 16 97) ⟨List.replicate 16 98, 16⟩
      ⟨2, [(1, List.replicate 16 97, ⟨16, 1⟩)], 1⟩
      ⟨3, [(2, List.replicate 16 98, ⟨16, 1⟩),
        (1, List.replicate 16 97, ⟨16, 1⟩)], 1⟩
      ⟨16, List.replicate 7 97, .ptr 1⟩
      ⟨16, List.replicate 7 98, .ptr 2⟩ (by decide) (by decide)⟩

/-- C8: the copy-on-write construction dispatches exactly: on a borrowed view
it returns exactly the borrowed-text path's result, and on an owned buffer
exactly the owned-buffer path's result (same success value or same `TooLong`
error, same heap effect). -/
theorem cow_dispatches_to_borrowed_or_owned :
    (∀ (h : Heap) (s : List Byte),
      tryFromCow h (.borrowed s) = tryFromStr h s) ∧
    (∀ (h : Heap) (st : RustString),
      tryFromCow h (.owned st) = tryFromString h st) :=
  ⟨fun _ _ => rfl, fun _ _ => rfl⟩

/-- C9, counterexample to the "half" comparison: on a 64-bit target (w = 8)
the struct is 16 bytes while a pointer+length+capacity handle is 24 bytes —
16 is not half of 24 (it is two-thirds), so the claim as stated is false. -/
theorem struct_size_not_half_of_ptr_len_cap :
    (tinyBoxedStrLayout 8).size = 16 ∧ (ptrLenCapLayout 8).size = 24 ∧
    ¬ 2 * (tinyBoxedStrLayout 8).size = (ptrLenCapLayout 8).size := by
  decide

/-- C9 (amended): the total size of the `TinyBoxedStr` struct is exactly two
machine words (`2 × size_of::<usize>()`), for every word size `w > 0`; that
is two-thirds — not half — of a pointer+length+capacity representation. -/
theorem struct_is_exactly_two_words (w : Nat) (hw : 0 < w) :
    (tinyBoxedStrLayout w).size = 2 * w ∧
    3 * (tinyBoxedStrLayout w).size = 2 * (ptrLenCapLayout w).size := by
  have h1 := tinyBoxedStrLayout_size w hw
  have h2 := ptrLenCapLayout_size w hw
  refine ⟨h1, ?_⟩
  rw [h1, h2]
  ring

/-- Witness for C9 (amended) at the 64-bit word size. -/
theorem struct_is_exactly_two_words_witness :
    (tinyBoxedStrLayout 8).size = 2 * 8 ∧
    3 * (tinyBoxedStrLayout 8).size = 2 * (ptrLenCapLayout 8).size :=
  struct_is_exactly_two_words 8 (by decide)

/-- C10: the cross-type comparison with a string slice (`PartialEq<str>`)
holds iff the instance's string view equals the slice, and it is consistent
with value-to-value equality on content; for a constructed instance the
comparison decides equality with the source string. -/
theorem str_comparison_matches_content (h : Heap) :
    (∀ (t : TinyBoxedStr) (s : List Byte),
      beqStr h t s = true ↔ asBytes h t = s) ∧
    (∀ a b : TinyBoxedStr, beq h a b = beqStr h a (asBytes h b)) ∧
    (∀ (s0 : List Byte) (h1 : Heap) (t : TinyBoxedStr) (s : List Byte),
      tryFromStr h s0 = (h1, .ok t) →
      (beqStr h1 t s = true ↔ s0 = s)) := by
  refine ⟨?_, fun a b => rfl, ?_⟩
  · intro t s
    simp [beqStr]
  · intro s0 h1 t s hc
    have hok : (tryFromStr h s0).2 = .ok t := by rw [hc]
    obtain ⟨-, hab, -, -, -, -⟩ := tryFromStr_ok_elim h s0 t hok
    have hh1 : (tryFromStr h s0).1 = h1 := by rw [hc]
    rw [hh1] at hab
    simp [beqStr, hab]

/-- Witness for C10 at a 2-byte construction. -/
theorem str_comparison_matches_content_witness :
    (beqStr Heap.empty
        ⟨2, [104, 105, 0, 0, 0, 0, 0], .suffix [0, 0, 0, 0, 0, 0, 0, 0]⟩
        [104, 105] = true ↔
      asBytes Heap.empty
          ⟨2, [104, 105, 0, 0, 0, 0, 0], .suffix [0, 0, 0, 0, 0, 0, 0, 0]⟩
        = [104, 105]) ∧
    (beqStr Heap.empty
        ⟨2, [104, 105, 0, 0, 0, 0, 0], .suffix [0, 0, 0, 0, 0, 0, 0, 0]⟩
        [104, 106] = true ↔ [104, 105] = [104, 106]) :=
  ⟨(str_comparison_matches_content Heap.empty).1 _ _,
    (str_comparison_matches_content Heap.empty).2.2 [104, 105] Heap.empty
      ⟨2, [104, 105, 0, 0, 0, 0, 0], .suffix [0, 0, 0, 0, 0, 0, 0, 0]⟩
      [104, 106] (by decide)⟩

end TinyStr
